import Mathlib

/-!
# ConvexFS metadata layer — verification of the specification claims

A shallow embedding of the metadata layer of the ConvexFS component
(`src/component/ops.ts`, `src/component/background.ts`, with the table
shapes of `src/component/schema.ts` and the argument shapes of
`src/component/validators.ts`), together with proofs and refutations of
the specification's claims about it.

The embedding follows the source statement by statement:

* the three metadata tables `files`, `blobs`, `uploads` are lists of rows,
  each row carrying its document id (`ctx.db.insert` allocates fresh ids,
  `ctx.db.patch` / `ctx.db.delete` address rows by id and throw when the
  id is gone, exactly like Convex);
* `.withIndex(...).unique()` is `getUnique…`: `none` for no match, the row
  for exactly one match, and a thrown error for several matches;
* a Convex mutation is a function `DB → Except Err DB`; case the runtime
  rolls back on a throw, the pre-call state is what a caller observes on
  an error.  For the atomicity claim the transact handler is additionally
  given in a no-rollback form that carries the state at the moment of the
  throw, so that "no writes happen before a predicate failure" is a
  theorem about the code and not an artifact of the rollback modelling.
-/

set_option maxRecDepth 4000
set_option linter.unnecessarySeqFocus false

namespace ConvexFs

/-! ## Rows and the metadata store (`schema.ts`) -/

/-- A row of the `files` table: a path bound to a blob id.
`id` is the Convex document id. -/
structure FileRow where
  id : Nat
  path : String
  blobId : String
deriving Repr, DecidableEq

/-- A row of the `blobs` table: a reference-counted blob with its
immutable metadata.  `refCount` is an `Int` because the handler arithmetic
is plain JS subtraction with no clamping. -/
structure BlobRow where
  id : Nat
  blobId : String
  contentType : String
  size : Nat
  refCount : Int
  updatedAt : Nat
deriving Repr, DecidableEq

/-- A row of the `uploads` table: a pending, uncommitted upload. -/
structure UploadRow where
  id : Nat
  blobId : String
  expiresAt : Nat
  contentType : Option String
  size : Option Nat
deriving Repr, DecidableEq

/-- The metadata store: the three tables plus the id allocator. -/
structure DB where
  files : List FileRow
  blobs : List BlobRow
  uploads : List UploadRow
  nextId : Nat
deriving Repr, DecidableEq

/-- The empty metadata store. -/
def DB.empty : DB := ⟨[], [], [], 0⟩

/-- Errors a handler can throw.  Conflict errors carry the interpolated
data of the thrown `Error` message; `uniqueViolation`, `patchMissing` and
`deleteMissing` are the errors the Convex db API itself raises. -/
inductive Err where
  | sourceConflict (path : String) (expected : String) (found : Option String)
  | destConflict (path : String) (expected : Option String) (found : Option String)
  | casConflict (path : String) (expected : String) (found : Option String)
  | invariantViolation (blobId : String) (path : String)
  | missingBlobs (ids : List String)
  | uniqueViolation
  | patchMissing
  | deleteMissing
deriving Repr, DecidableEq

/-- The conflict kinds thrown by the predicate checks of `transact`
(phase 1): source conflicts and dest conflicts. -/
def Err.isPredicateConflict : Err → Bool
  | .sourceConflict _ _ _ => true
  | .destConflict _ _ _ => true
  | _ => false

/-! ## The Convex db primitives -/

/-- `.withIndex(...).unique()`: no row, the unique row, or a thrown error
when the index range holds several rows. -/
def getUniqueBy {α : Type} (p : α → Bool) (rows : List α) : Except Err (Option α) :=
  match rows.filter p with
  | [] => .ok none
  | [row] => .ok (some row)
  | _ => .error .uniqueViolation

/-- `ctx.db.query("files").withIndex("path", q.eq("path", path)).unique()` -/
def getUniqueFileByPath (db : DB) (path : String) : Except Err (Option FileRow) :=
  getUniqueBy (fun f => f.path == path) db.files

/-- `ctx.db.query("blobs").withIndex("blobId", q.eq("blobId", blobId)).unique()` -/
def getUniqueBlobByBlobId (db : DB) (blobId : String) : Except Err (Option BlobRow) :=
  getUniqueBy (fun b => b.blobId == blobId) db.blobs

/-- `ctx.db.query("uploads").withIndex("blobId", q.eq("blobId", blobId)).unique()` -/
def getUniqueUploadByBlobId (db : DB) (blobId : String) : Except Err (Option UploadRow) :=
  getUniqueBy (fun u => u.blobId == blobId) db.uploads

/-- `ctx.db.insert("files", {path, blobId})` -/
def insertFile (db : DB) (path : String) (blobId : String) : DB :=
  { db with files := db.files ++ [⟨db.nextId, path, blobId⟩], nextId := db.nextId + 1 }

/-- `ctx.db.insert("blobs", {blobId, metadata, refCount, updatedAt})` -/
def insertBlob (db : DB) (blobId : String) (contentType : String) (size : Nat)
    (refCount : Int) (updatedAt : Nat) : DB :=
  { db with blobs := db.blobs ++ [⟨db.nextId, blobId, contentType, size, refCount, updatedAt⟩],
            nextId := db.nextId + 1 }

/-- `ctx.db.patch(fileId, …)` — throws when the document is gone. -/
def patchFileRow (db : DB) (id : Nat) (f : FileRow → FileRow) : Except Err DB :=
  if db.files.any (fun r => r.id == id) then
    .ok { db with files := db.files.map (fun r => if r.id == id then f r else r) }
  else .error .patchMissing

/-- `ctx.db.patch(blobId, …)` — throws when the document is gone. -/
def patchBlobRow (db : DB) (id : Nat) (f : BlobRow → BlobRow) : Except Err DB :=
  if db.blobs.any (fun r => r.id == id) then
    .ok { db with blobs := db.blobs.map (fun r => if r.id == id then f r else r) }
  else .error .patchMissing

/-- `ctx.db.delete(fileId)` — throws when the document is gone. -/
def deleteFileRow (db : DB) (id : Nat) : Except Err DB :=
  if db.files.any (fun r => r.id == id) then
    .ok { db with files := db.files.filter (fun r => !(r.id == id)) }
  else .error .deleteMissing

/-- `ctx.db.delete(uploadId)` — throws when the document is gone. -/
def deleteUploadRow (db : DB) (id : Nat) : Except Err DB :=
  if db.uploads.any (fun r => r.id == id) then
    .ok { db with uploads := db.uploads.filter (fun r => !(r.id == id)) }
  else .error .deleteMissing

/-! ## `transact` (`ops.ts`)

Argument shapes follow `validators.ts`: a `source` is the caller's
last-known full record (`fileMetadataValidator`), a `dest` is a path plus
a `basis` that is `undefined`, `null`, or a blob id
(`v.optional(v.union(v.null(), v.string()))`), embedded as
`Option (Option String)` — `none` for `undefined`, `some none` for
`null`, `some (some s)` for a string. -/

/-- `fileMetadataValidator`: the source record of a transact operation. -/
structure Source where
  path : String
  blobId : String
  contentType : String
  size : Nat
deriving Repr, DecidableEq

/-- `destValidator`: the destination of a move/copy. -/
structure Dest where
  path : String
  basis : Option (Option String)
deriving Repr, DecidableEq

/-- `opValidator`: a transact operation. -/
inductive Op where
  | move (source : Source) (dest : Dest)
  | copy (source : Source) (dest : Dest)
  | delete (source : Source)
deriving Repr, DecidableEq

/-- The `op.source` field. -/
def Op.source : Op → Source
  | .move s _ => s
  | .copy s _ => s
  | .delete s => s

/-- Phase 1 of `transact`, for one operation: the source predicate
(`sourceFile` exists and carries the expected blob id) and, for move and
copy, the dest predicate (`basis === undefined` requires the dest to be
absent; otherwise the dest must exist and its blob id must strictly equal
the basis).  Pure: the loop only issues `ctx.db.query` reads. -/
def validateOp (db : DB) (op : Op) : Option Err :=
  match getUniqueFileByPath db op.source.path with
  | .error e => some e
  | .ok none => some (.sourceConflict op.source.path op.source.blobId none)
  | .ok (some sourceFile) =>
    if sourceFile.blobId != op.source.blobId then
      some (.sourceConflict op.source.path op.source.blobId (some sourceFile.blobId))
    else
      match op with
      | .delete _ => none
      | .move _ dest | .copy _ dest =>
        match getUniqueFileByPath db dest.path with
        | .error e => some e
        | .ok destFile =>
          match dest.basis with
          | none =>
            match destFile with
            | some df => some (.destConflict dest.path none (some df.blobId))
            | none => none
          | some basis =>
            match destFile with
            | none => some (.destConflict dest.path basis none)
            | some df =>
              if basis != some df.blobId then
                some (.destConflict dest.path basis (some df.blobId))
              else none

/-- Phase 1 of `transact` over the whole journal: every operation is
validated against the state the call started in; the first failure wins. -/
def validateOps (db : DB) : List Op → Option Err
  | [] => none
  | op :: rest =>
    match validateOp db op with
    | some e => some e
    | none => validateOps db rest

/-- Phase 2, `op.op === "delete"`: delete the file row, then decrement the
source blob's refCount.  The result carries the exact store state at the
moment of a throw (no rollback applied). -/
def applyDelete (db : DB) (now : Nat) (src : Source) : Except (Err × DB) DB :=
  match getUniqueFileByPath db src.path with
  | .error e => .error (e, db)
  | .ok none => .ok db
  | .ok (some file) =>
    match deleteFileRow db file.id with
    | .error e => .error (e, db)
    | .ok db1 =>
      match getUniqueBlobByBlobId db1 file.blobId with
      | .error e => .error (e, db1)
      | .ok none => .ok db1
      | .ok (some blob) =>
        match patchBlobRow db1 blob.id
            (fun r => { r with refCount := r.refCount - 1, updatedAt := now }) with
        | .error e => .error (e, db1)
        | .ok db2 => .ok db2

/-- The overwrite block of phase-2 `move`: when a basis was provided and a
file exists at the dest path, delete that row and decrement its blob. -/
def moveOverwriteDest (db : DB) (now : Nat) (dest : Dest) : Except (Err × DB) DB :=
  match dest.basis with
  | none => .ok db
  | some _ =>
    match getUniqueFileByPath db dest.path with
    | .error e => .error (e, db)
    | .ok none => .ok db
    | .ok (some destFile) =>
      match deleteFileRow db destFile.id with
      | .error e => .error (e, db)
      | .ok db1 =>
        match getUniqueBlobByBlobId db1 destFile.blobId with
        | .error e => .error (e, db1)
        | .ok none => .ok db1
        | .ok (some destBlob) =>
          match patchBlobRow db1 destBlob.id
              (fun r => { r with refCount := r.refCount - 1, updatedAt := now }) with
          | .error e => .error (e, db1)
          | .ok db2 => .ok db2

/-- Phase 2, `op.op === "move"`: run the overwrite block, then retarget
the source row's path to the dest path. -/
def applyMove (db : DB) (now : Nat) (src : Source) (dest : Dest) : Except (Err × DB) DB :=
  match getUniqueFileByPath db src.path with
  | .error e => .error (e, db)
  | .ok none => .ok db
  | .ok (some sourceFile) =>
    match moveOverwriteDest db now dest with
    | .error e => .error e
    | .ok db1 =>
      match patchFileRow db1 sourceFile.id (fun r => { r with path := dest.path }) with
      | .error e => .error (e, db1)
      | .ok db2 => .ok db2

/-- The increment step of phase-2 `copy`: bump the source blob's refCount
when its row exists. -/
def copyIncrementSource (db : DB) (now : Nat) (sourceBlobId : String) : Except (Err × DB) DB :=
  match getUniqueBlobByBlobId db sourceBlobId with
  | .error e => .error (e, db)
  | .ok none => .ok db
  | .ok (some sourceBlob) =>
    match patchBlobRow db sourceBlob.id
        (fun r => { r with refCount := r.refCount + 1, updatedAt := now }) with
    | .error e => .error (e, db)
    | .ok db1 => .ok db1

/-- The dest block of phase-2 `copy`: with a basis, repoint an existing
dest row at the source blob and decrement the old dest blob; without one,
insert a fresh file row at the dest path. -/
def copyHandleDest (db : DB) (now : Nat) (sourceBlobId : String) (dest : Dest) :
    Except (Err × DB) DB :=
  match dest.basis with
  | some _ =>
    match getUniqueFileByPath db dest.path with
    | .error e => .error (e, db)
    | .ok none => .ok db
    | .ok (some destFile) =>
      match patchFileRow db destFile.id (fun r => { r with blobId := sourceBlobId }) with
      | .error e => .error (e, db)
      | .ok db1 =>
        match getUniqueBlobByBlobId db1 destFile.blobId with
        | .error e => .error (e, db1)
        | .ok none => .ok db1
        | .ok (some destBlob) =>
          match patchBlobRow db1 destBlob.id
              (fun r => { r with refCount := r.refCount - 1, updatedAt := now }) with
          | .error e => .error (e, db1)
          | .ok db2 => .ok db2
  | none => .ok (insertFile db dest.path sourceBlobId)

/-- Phase 2, `op.op === "copy"`: increment the source blob, then run the
dest block. -/
def applyCopy (db : DB) (now : Nat) (src : Source) (dest : Dest) : Except (Err × DB) DB :=
  match getUniqueFileByPath db src.path with
  | .error e => .error (e, db)
  | .ok none => .ok db
  | .ok (some sourceFile) =>
    match copyIncrementSource db now sourceFile.blobId with
    | .error e => .error e
    | .ok db1 => copyHandleDest db1 now sourceFile.blobId dest

/-- Phase 2 for one operation. -/
def applyOp (db : DB) (now : Nat) : Op → Except (Err × DB) DB
  | .delete src => applyDelete db now src
  | .move src dest => applyMove db now src dest
  | .copy src dest => applyCopy db now src dest

/-- Phase 2 over the whole journal, sequentially. -/
def applyOps (db : DB) (now : Nat) : List Op → Except (Err × DB) DB
  | [] => .ok db
  | op :: rest =>
    match applyOp db now op with
    | .error e => .error e
    | .ok db1 => applyOps db1 now rest

/-- The `transact` mutation handler, in no-rollback form: the error case
carries the table state at the moment of the throw.  Phase 1 validates
every operation (reads only), phase 2 applies them. -/
def transactRun (db : DB) (now : Nat) (ops : List Op) : Except (Err × DB) DB :=
  match validateOps db ops with
  | some e => .error (e, db)
  | none => applyOps db now ops

/-- The `transact` mutation as a caller observes it: the Convex runtime
rolls the transaction back on a throw, so an error leaves the store as it
was. -/
def transact (db : DB) (now : Nat) (ops : List Op) : Except Err DB :=
  match transactRun db now ops with
  | .error (e, _) => .error e
  | .ok db1 => .ok db1

/-! ## The commit path (`ops.ts`) -/

/-- An entry of `commitFilesInternal`: path, blob id, optional CAS basis
(`v.optional(v.string())`) and the blob metadata the action resolved. -/
structure CommitEntry where
  path : String
  blobId : String
  basis : Option String
  contentType : String
  size : Nat
deriving Repr, DecidableEq

/-- The CAS check of `commitFilesInternal` for one entry: when a basis is
given, the blob id currently at the path (`null` for no file) must
strictly equal it. -/
def commitCasOne (db : DB) (e : CommitEntry) : Option Err :=
  match e.basis with
  | none => none
  | some basis =>
    match getUniqueFileByPath db e.path with
    | .error err => some err
    | .ok currentFile =>
      if currentFile.map (fun f => f.blobId) != some basis then
        some (.casConflict e.path basis (currentFile.map (fun f => f.blobId)))
      else none

/-- The CAS loop of `commitFilesInternal`: every entry is checked before
any write, so every check reads the initial state; the first failure
wins. -/
def commitCasCheck (db : DB) : List CommitEntry → Option Err
  | [] => none
  | e :: rest =>
    match commitCasOne db e with
    | some err => some err
    | none => commitCasCheck db rest

/-- Step 2 of the apply loop body: patch the existing file at the path to
the new blob id and decrement the old blob, or insert a new file row. -/
def commitFileStep (db : DB) (now : Nat) (e : CommitEntry) : Except Err DB :=
  match getUniqueFileByPath db e.path with
  | .error err => .error err
  | .ok (some f) =>
    (match patchFileRow db f.id (fun r => { r with blobId := e.blobId }) with
     | .error err => .error err
     | .ok dbp =>
       match getUniqueBlobByBlobId dbp f.blobId with
       | .error err => .error err
       | .ok none => .ok dbp
       | .ok (some b) =>
         patchBlobRow dbp b.id
           (fun r => { r with refCount := r.refCount - 1, updatedAt := now }))
  | .ok none => .ok (insertFile db e.path e.blobId)

/-- Step 3 of the apply loop: delete the consumed `uploads` row when one
exists. -/
def commitUploadStep (db : DB) (e : CommitEntry) : Except Err DB :=
  match getUniqueUploadByBlobId db e.blobId with
  | .error err => .error err
  | .ok none => .ok db
  | .ok (some u) => deleteUploadRow db u.id

/-- The apply loop body of `commitFilesInternal` for one entry:
1. insert a `blobs` row with `refCount = 1`;
2. the file step;
3. the upload step. -/
def commitApplyOne (db : DB) (now : Nat) (e : CommitEntry) : Except Err DB :=
  match commitFileStep (insertBlob db e.blobId e.contentType e.size 1 now) now e with
  | .error err => .error err
  | .ok db2 => commitUploadStep db2 e

/-- The apply loop of `commitFilesInternal` over all entries. -/
def commitApply (db : DB) (now : Nat) : List CommitEntry → Except Err DB
  | [] => .ok db
  | e :: rest =>
    match commitApplyOne db now e with
    | .error err => .error err
    | .ok db1 => commitApply db1 now rest

/-- The `commitFilesInternal` mutation: verify all CAS conditions, then
commit the entries.  A throw rolls the whole transaction back. -/
def commitFilesInternal (db : DB) (now : Nat) (entries : List CommitEntry) : Except Err DB :=
  match commitCasCheck db entries with
  | some e => .error e
  | none => commitApply db now entries

/-- The metadata a `store.head(blobId)` call reports. -/
structure HeadMeta where
  contentType : Option String
  contentLength : Nat
deriving Repr, DecidableEq

/-- An entry of the public `commitFiles` action (`fileCommitValidator`):
the caller supplies only path, blob id and optional basis — no metadata. -/
structure CommitReq where
  path : String
  blobId : String
  basis : Option String
deriving Repr, DecidableEq

/-- The `commitFiles` action: an empty list is a no-op; otherwise every
blob id is `head`ed against the object store, the action fails when any is
missing, and the entries — with `contentType` and `size` taken from the
`head` results, `contentType` defaulting to `application/octet-stream` —
are committed through `commitFilesInternal`. -/
def commitFiles (store : String → Option HeadMeta) (db : DB) (now : Nat)
    (files : List CommitReq) : Except Err DB :=
  if files.isEmpty then .ok db
  else if files.any (fun f => (store f.blobId).isNone) then
    .error (.missingBlobs ((files.filter (fun f => (store f.blobId).isNone)).map (fun f => f.blobId)))
  else
    commitFilesInternal db now (files.map (fun f =>
      match store f.blobId with
      | some m => ⟨f.path, f.blobId, f.basis, m.contentType.getD "application/octet-stream", m.contentLength⟩
      | none => ⟨f.path, f.blobId, f.basis, "application/octet-stream", 0⟩))

/-! ## The query path (`ops.ts`) -/

/-- The metadata record `stat` and `list` return per file. -/
structure FileMetadata where
  path : String
  blobId : String
  contentType : String
  size : Nat
deriving Repr, DecidableEq

/-- The `stat` query: the unique file at the path (or `null`), joined with
its blob; a file whose blob row is missing is a hard invariant violation,
not a not-found. -/
def stat (db : DB) (path : String) : Except Err (Option FileMetadata) :=
  match getUniqueFileByPath db path with
  | .error e => .error e
  | .ok none => .ok none
  | .ok (some f) =>
    match getUniqueBlobByBlobId db f.blobId with
    | .error e => .error e
    | .ok none => .error (.invariantViolation f.blobId path)
    | .ok (some b) => .ok (some ⟨f.path, f.blobId, b.contentType, b.size⟩)

/-! ## `list` (`ops.ts`)

Convex orders string index keys by code point (lexicographic on the
UTF-8 encoding); `pathLt` is that order on the embedded paths, and the
`path` index enumerates `files` in ascending `pathLt` order. -/

/-- Code-point-lexicographic strict order on strings, as the `path` index
compares its keys. -/
def charListLt : List Char → List Char → Bool
  | [], [] => false
  | [], _ :: _ => true
  | _ :: _, [] => false
  | a :: as, b :: bs => a < b || (a == b && charListLt as bs)

/-- `a < b` on paths. -/
def pathLt (a b : String) : Bool := charListLt a.data b.data

/-- `a <= b` on paths (`gte` of the index range). -/
def pathLe (a b : String) : Bool := !(pathLt b a)

/-- The index order on `files` rows: ascending path. -/
def fileRowLe (a b : FileRow) : Prop := pathLe a.path b.path = true

instance : DecidableRel fileRowLe := by
  unfold fileRowLe; infer_instance

/-- The `files` table as its `path` index enumerates it: ascending path
order. -/
def filesIndexAsc (db : DB) : List FileRow :=
  List.insertionSort fileRowLe db.files

/-- `"￿"`, the upper-bound sentinel `list` appends to the prefix. -/
def maxCharStr : String := ⟨[Char.ofNat 0xFFFF]⟩

/-- The index scan of the `list` query: with a non-empty prefix the range
`gte("path", prefix).lt("path", prefix + "￿")` in ascending order,
otherwise the whole index. -/
def listQuery (db : DB) (pre : String) : List FileRow :=
  if pre == "" then filesIndexAsc db
  else (filesIndexAsc db).filter
    (fun f => pathLe pre f.path && pathLt f.path (pre ++ maxCharStr))

/-- The `list` handler's page construction: each scanned file is joined
with its blob, a missing blob being a hard invariant violation. -/
def listFiles (db : DB) (pre : String) : Except Err (List FileMetadata) :=
  (listQuery db pre).mapM (fun f => do
    let blob ← getUniqueBlobByBlobId db f.blobId
    match blob with
    | none => throw (.invariantViolation f.blobId f.path)
    | some b => pure ⟨f.path, f.blobId, b.contentType, b.size⟩)

/-! ## Garbage collection (`background.ts`) -/

/-- The GC-relevant fields of the stored config document's `value`. -/
structure StoredConfig where
  blobGracePeriod : Option Nat
  freezeGc : Option Bool
deriving Repr, DecidableEq

/-- The status of one `store.delete(blobId)` call: the two contractual
statuses, or a thrown storage error (caught per item). -/
inductive DeleteOutcome where
  | deleted
  | notFound
  | errored
deriving Repr, DecidableEq

/-- `GC_BATCH_SIZE` -/
def gcBatchSize : Nat := 100

/-- `DEFAULT_BLOB_GRACE_PERIOD_S` (24 hours in seconds). -/
def defaultBlobGracePeriodS : Nat := 24 * 60 * 60

/-- The `uploads` table as its `expiresAt` index enumerates it. -/
def uploadsIndexByExpiresAt (db : DB) : List UploadRow :=
  List.insertionSort (fun a b => a.expiresAt ≤ b.expiresAt) db.uploads

/-- `findExpiredUploads`: uploads with `expiresAt < threshold`, up to
`limit`. -/
def findExpiredUploads (db : DB) (threshold : Nat) (limit : Nat) : List UploadRow :=
  ((uploadsIndexByExpiresAt db).filter (fun u => u.expiresAt < threshold)).take limit

/-- The `blobs` table as the `refCountUpdatedAt` index enumerates the
`refCount = 0` range: ascending `updatedAt`. -/
def blobsIndexByUpdatedAt (db : DB) : List BlobRow :=
  List.insertionSort (fun a b => a.updatedAt ≤ b.updatedAt) db.blobs

/-- `findOrphanedBlobs`: blobs with `refCount = 0` and
`updatedAt < threshold`, up to `limit`.  The threshold is an `Int`
because `Date.now() - gracePeriodS * 1000` may be negative. -/
def findOrphanedBlobs (db : DB) (threshold : Int) (limit : Nat) : List BlobRow :=
  ((blobsIndexByUpdatedAt db).filter
    (fun b => b.refCount == 0 && (b.updatedAt : Int) < threshold)).take limit

/-- `gcExpiredUploads`: one Upload GC sweep.  Returns the resulting store
and whether a follow-up run was scheduled.  `storeDelete` gives the
outcome of each per-item `store.delete`, whose throw the sweep catches
individually. -/
def gcExpiredUploads (cfg : Option StoredConfig) (now : Nat)
    (storeDelete : String → DeleteOutcome) (db : DB) : DB × Bool :=
  match cfg with
  | none => (db, false)
  | some config =>
    if config.freezeGc.getD false then (db, false)
    else
      let expired := findExpiredUploads db now gcBatchSize
      if expired.isEmpty then (db, false)
      else
        let results := expired.map (fun u => (u, storeDelete u.blobId))
        let okToDelete := (results.filter (fun r => r.2 != DeleteOutcome.errored)).map Prod.fst
        let errorCount := results.countP (fun r => r.2 == DeleteOutcome.errored)
        let db1 :=
          if okToDelete.length > 0 then
            { db with uploads :=
                db.uploads.filter (fun u => !(okToDelete.any (fun v => v.id == u.id))) }
          else db
        (db1, expired.length == gcBatchSize && errorCount == 0)

/-- `gcOrphanedBlobs`: one Blob GC sweep.  The candidate threshold is
`now - gracePeriodS * 1000` with the grace period from the config,
defaulting to 86400 seconds. -/
def gcOrphanedBlobs (cfg : Option StoredConfig) (now : Nat)
    (storeDelete : String → DeleteOutcome) (db : DB) : DB × Bool :=
  match cfg with
  | none => (db, false)
  | some config =>
    if config.freezeGc.getD false then (db, false)
    else
      let gracePeriodS := config.blobGracePeriod.getD defaultBlobGracePeriodS
      let threshold : Int := (now : Int) - (gracePeriodS : Int) * 1000
      let orphaned := findOrphanedBlobs db threshold gcBatchSize
      if orphaned.isEmpty then (db, false)
      else
        let results := orphaned.map (fun b => (b, storeDelete b.blobId))
        let okToDelete := (results.filter (fun r => r.2 != DeleteOutcome.errored)).map Prod.fst
        let errorCount := results.countP (fun r => r.2 == DeleteOutcome.errored)
        let db1 :=
          if okToDelete.length > 0 then
            { db with blobs :=
                db.blobs.filter (fun b => !(okToDelete.any (fun v => v.id == b.id))) }
          else db
        (db1, orphaned.length == gcBatchSize && errorCount == 0)

/-! ## Properties and fixtures -/

/-- P1, refcount conservation: every `blobs` row's `refCount` equals the
number of `files` rows whose `blobId` equals that row's blob id. -/
def refCountConserved (db : DB) : Prop :=
  ∀ b ∈ db.blobs, b.refCount = ((db.files.filter (fun f => f.blobId == b.blobId)).length : Int)

instance (db : DB) : Decidable (refCountConserved db) := by
  unfold refCountConserved; infer_instance

/-- A transact source record; the `contentType`/`size` fields are not read
by `transact`. -/
def sampleSource (p b : String) : Source := ⟨p, b, "t", 1⟩

/-- Two committed files, `/target → old-blob` and `/source → new-blob`. -/
def dbTargetSource : DB :=
  ⟨[⟨0, "/target", "old-blob"⟩, ⟨1, "/source", "new-blob"⟩],
   [⟨2, "old-blob", "t", 1, 1, 0⟩, ⟨3, "new-blob", "t", 1, 1, 0⟩], [], 4⟩

/-- One committed file, `/a → blob-1`. -/
def dbSingleA : DB :=
  ⟨[⟨0, "/a", "blob-1"⟩], [⟨1, "blob-1", "t", 1, 1, 0⟩], [], 2⟩

/-- Two committed files, `/a → blob-1` and `/b → blob-2`. -/
def dbPairAB : DB :=
  ⟨[⟨0, "/a", "blob-1"⟩, ⟨1, "/b", "blob-2"⟩],
   [⟨2, "blob-1", "t", 1, 1, 0⟩, ⟨3, "blob-2", "t", 1, 1, 0⟩], [], 4⟩

/-- An object store holding exactly one blob, `b1`. -/
def headStoreB1 : String → Option HeadMeta :=
  fun b => if b == "b1" then some ⟨some "text/plain", 5⟩ else none

/-! ## C1 — refcount conservation -/

/-- C1: refcount conservation fails on the code.  From the empty store,
one successful `commitFiles` call committing the same blob id `b1` at the
two paths `/a` and `/c` (each entry inserts its own fresh `blobs` row
with `refCount = 1`) yields a store in which a `blobs` row for `b1` has
`refCount = 1` while two `files` rows reference `b1`. -/
theorem commitFiles_breaks_refCount_conservation :
    ∃ db : DB,
      commitFiles headStoreB1 DB.empty 1000
        [⟨"/a", "b1", none⟩, ⟨"/c", "b1", none⟩] = .ok db ∧
      ¬ refCountConserved db := by
  exact ⟨_, rfl, by decide⟩

/-! ## C3 — journal ordering -/

/-- C3: the code violates journal ordering.  Operation predicates are
checked against the state the call started in, so (i) a journal that
deletes `/target` and then moves `/source` into `/target` with
`basis = null` fails with a dest conflict, and (ii) a chained rename
`/a → /b` then `/b → /c` fails with a source conflict on the second
operation — both of which the claim (and the repository's journal
semantics test-suite) says succeed. -/
theorem transact_validates_against_initial_state :
    transact dbTargetSource 1000
      [.delete (sampleSource "/target" "old-blob"),
       .move (sampleSource "/source" "new-blob") ⟨"/target", some none⟩] =
      .error (.destConflict "/target" none (some "old-blob")) ∧
    transact dbSingleA 1000
      [.move (sampleSource "/a" "blob-1") ⟨"/b", none⟩,
       .move (sampleSource "/b" "blob-1") ⟨"/c", none⟩] =
      .error (.sourceConflict "/b" "blob-1" none) := by
  exact ⟨rfl, rfl⟩

/-! ## C4 — CAS semantics of `dest.basis` -/

/-- C4: the code contradicts the documented tri-state basis semantics.
(i) With `basis = null` and no file at the dest path the claim says the
move succeeds; the code throws a dest conflict (a `null` basis can never
pass its check).  (ii) With `basis = undefined` and an existing dest the
claim says the dest is silently overwritten; the code throws a dest
conflict (it treats `undefined` as "dest must not exist"). -/
theorem transact_dest_basis_contradicts_documented_semantics :
    transact dbSingleA 1000
      [.move (sampleSource "/a" "blob-1") ⟨"/b", some none⟩] =
      .error (.destConflict "/b" none none) ∧
    transact dbPairAB 1000
      [.move (sampleSource "/a" "blob-1") ⟨"/b", none⟩] =
      .error (.destConflict "/b" none (some "blob-2")) := by
  exact ⟨rfl, rfl⟩

/-! ## C2 — atomicity of `transact`

The contentful half of the atomicity claim: every predicate failure is
thrown by phase 1, which only reads, so at the moment a predicate-failure
throw happens the tables are untouched — atomic rollback needs no undo.
The lemmas below show the apply phase can only throw the db-API errors,
never a source/dest conflict. -/

theorem getUniqueBy_error_not_pred {α : Type} {p : α → Bool} {rows : List α} {e : Err}
    (h : getUniqueBy p rows = .error e) : e.isPredicateConflict = false := by
  unfold getUniqueBy at h
  split at h <;> cases h <;> rfl

theorem patchFileRow_error_not_pred {db : DB} {id : Nat} {f : FileRow → FileRow} {e : Err}
    (h : patchFileRow db id f = .error e) : e.isPredicateConflict = false := by
  unfold patchFileRow at h
  split at h <;> cases h <;> rfl

theorem patchBlobRow_error_not_pred {db : DB} {id : Nat} {f : BlobRow → BlobRow} {e : Err}
    (h : patchBlobRow db id f = .error e) : e.isPredicateConflict = false := by
  unfold patchBlobRow at h
  split at h <;> cases h <;> rfl

theorem deleteFileRow_error_not_pred {db : DB} {id : Nat} {e : Err}
    (h : deleteFileRow db id = .error e) : e.isPredicateConflict = false := by
  unfold deleteFileRow at h
  split at h <;> cases h <;> rfl

theorem applyDelete_error_not_pred {db : DB} {now : Nat} {src : Source} {e : Err} {dbAt : DB}
    (h : applyDelete db now src = .error (e, dbAt)) : e.isPredicateConflict = false := by
  unfold applyDelete at h
  split at h
  · cases h
    exact getUniqueBy_error_not_pred (by assumption)
  · cases h
  · split at h
    · cases h
      exact deleteFileRow_error_not_pred (by assumption)
    · split at h
      · cases h
        exact getUniqueBy_error_not_pred (by assumption)
      · cases h
      · split at h
        · cases h
          exact patchBlobRow_error_not_pred (by assumption)
        · cases h

theorem moveOverwriteDest_error_not_pred {db : DB} {now : Nat} {dest : Dest} {e : Err} {dbAt : DB}
    (h : moveOverwriteDest db now dest = .error (e, dbAt)) : e.isPredicateConflict = false := by
  unfold moveOverwriteDest at h
  split at h
  · cases h
  · split at h
    · cases h
      exact getUniqueBy_error_not_pred (by assumption)
    · cases h
    · split at h
      · cases h
        exact deleteFileRow_error_not_pred (by assumption)
      · split at h
        · cases h
          exact getUniqueBy_error_not_pred (by assumption)
        · cases h
        · split at h
          · cases h
            exact patchBlobRow_error_not_pred (by assumption)
          · cases h

theorem applyMove_error_not_pred {db : DB} {now : Nat} {src : Source} {dest : Dest} {e : Err}
    {dbAt : DB} (h : applyMove db now src dest = .error (e, dbAt)) :
    e.isPredicateConflict = false := by
  unfold applyMove at h
  split at h
  · cases h
    exact getUniqueBy_error_not_pred (by assumption)
  · cases h
  · split at h
    · cases h
      exact moveOverwriteDest_error_not_pred (by assumption)
    · split at h
      · cases h
        exact patchFileRow_error_not_pred (by assumption)
      · cases h

theorem copyIncrementSource_error_not_pred {db : DB} {now : Nat} {blobId : String} {e : Err}
    {dbAt : DB} (h : copyIncrementSource db now blobId = .error (e, dbAt)) :
    e.isPredicateConflict = false := by
  unfold copyIncrementSource at h
  split at h
  · cases h
    exact getUniqueBy_error_not_pred (by assumption)
  · cases h
  · split at h
    · cases h
      exact patchBlobRow_error_not_pred (by assumption)
    · cases h

theorem copyHandleDest_error_not_pred {db : DB} {now : Nat} {blobId : String} {dest : Dest}
    {e : Err} {dbAt : DB} (h : copyHandleDest db now blobId dest = .error (e, dbAt)) :
    e.isPredicateConflict = false := by
  unfold copyHandleDest at h
  split at h
  · split at h
    · cases h
      exact getUniqueBy_error_not_pred (by assumption)
    · cases h
    · split at h
      · cases h
        exact patchFileRow_error_not_pred (by assumption)
      · split at h
        · cases h
          exact getUniqueBy_error_not_pred (by assumption)
        · cases h
        · split at h
          · cases h
            exact patchBlobRow_error_not_pred (by assumption)
          · cases h
  · cases h

theorem applyCopy_error_not_pred {db : DB} {now : Nat} {src : Source} {dest : Dest} {e : Err}
    {dbAt : DB} (h : applyCopy db now src dest = .error (e, dbAt)) :
    e.isPredicateConflict = false := by
  unfold applyCopy at h
  split at h
  · cases h
    exact getUniqueBy_error_not_pred (by assumption)
  · cases h
  · split at h
    · cases h
      exact copyIncrementSource_error_not_pred (by assumption)
    · exact copyHandleDest_error_not_pred h

theorem applyOp_error_not_pred {db : DB} {now : Nat} {op : Op} {e : Err} {dbAt : DB}
    (h : applyOp db now op = .error (e, dbAt)) : e.isPredicateConflict = false := by
  cases op with
  | delete src => exact applyDelete_error_not_pred h
  | move src dest => exact applyMove_error_not_pred h
  | copy src dest => exact applyCopy_error_not_pred h

theorem applyOps_error_not_pred {now : Nat} {ops : List Op} :
    ∀ {db : DB} {e : Err} {dbAt : DB},
    applyOps db now ops = .error (e, dbAt) → e.isPredicateConflict = false := by
  induction ops with
  | nil => intro db e dbAt h; cases h
  | cons op rest ih =>
    intro db e dbAt h
    unfold applyOps at h
    split at h
    · cases h
      exact applyOp_error_not_pred (by assumption)
    · exact ih h

/-- C2: atomicity of `transact`.  Whenever a `transact` call throws a
predicate failure (a source or dest conflict), the tables at the moment of
the throw are exactly the tables the call started with: every predicate is
checked by the read-only phase 1 before any write of phase 2, so no
partial effects of preceding operations are ever visible, with or without
the runtime's rollback. -/
theorem transact_predicate_failure_leaves_store_unchanged
    (db : DB) (now : Nat) (ops : List Op) (e : Err) (dbAt : DB)
    (h : transactRun db now ops = .error (e, dbAt))
    (hpred : e.isPredicateConflict = true) : dbAt = db := by
  unfold transactRun at h
  split at h
  · cases h
    rfl
  · simp [applyOps_error_not_pred h] at hpred

/-- Witness for C2: a two-op journal whose second operation's source
predicate fails throws with the store exactly as it started. -/
theorem transact_predicate_failure_leaves_store_unchanged_witness :
    transactRun dbTargetSource 1000
      [.delete (sampleSource "/target" "old-blob"),
       .delete (sampleSource "/missing" "b")] =
      .error (.sourceConflict "/missing" "b" none, dbTargetSource) ∧
    dbTargetSource = dbTargetSource :=
  ⟨rfl, transact_predicate_failure_leaves_store_unchanged dbTargetSource 1000
      [.delete (sampleSource "/target" "old-blob"), .delete (sampleSource "/missing" "b")]
      (.sourceConflict "/missing" "b" none) dbTargetSource rfl rfl⟩

/-! ## C8 — `stat` error discipline -/

/-- C8: `stat` returns `null` exactly when no `files` row carries the
path, and a file whose referenced blob row is missing makes `stat` throw
the hard invariant-violation error instead of returning a normal result. -/
theorem stat_null_iff_absent_and_missing_blob_is_hard_error (db : DB) (p : String) :
    (stat db p = .ok none ↔ db.files.filter (fun f => f.path == p) = []) ∧
    (∀ f : FileRow, db.files.filter (fun f2 => f2.path == p) = [f] →
      db.blobs.filter (fun b => b.blobId == f.blobId) = [] →
      stat db p = .error (.invariantViolation f.blobId p)) := by
  constructor
  · constructor
    · intro h
      rcases hfil : db.files.filter (fun f => f.path == p) with _ | ⟨f, _ | ⟨g, rest⟩⟩
      · exact hfil
      · exfalso
        rcases hb : db.blobs.filter (fun b => b.blobId == f.blobId) with _ | ⟨b, _ | ⟨c, rest2⟩⟩ <;>
          simp [stat, getUniqueFileByPath, getUniqueBlobByBlobId, getUniqueBy, hfil, hb] at h
      · exfalso
        simp [stat, getUniqueFileByPath, getUniqueBy, hfil] at h
    · intro h
      simp [stat, getUniqueFileByPath, getUniqueBy, h]
  · intro f hf hb
    simp [stat, getUniqueFileByPath, getUniqueBlobByBlobId, getUniqueBy, hf, hb]

/-- A store with a file whose blob row is missing. -/
def dbGhost : DB := ⟨[⟨0, "/x", "ghost"⟩], [], [], 1⟩

/-- Witness for C8: the dangling file raises the invariant violation, an
absent path yields `null`. -/
theorem stat_null_iff_absent_witness :
    stat dbGhost "/x" = .error (.invariantViolation "ghost" "/x") ∧
    stat dbGhost "/y" = .ok none :=
  ⟨(stat_null_iff_absent_and_missing_blob_is_hard_error dbGhost "/x").2 ⟨0, "/x", "ghost"⟩ rfl rfl,
   (stat_null_iff_absent_and_missing_blob_is_hard_error dbGhost "/y").1.mpr rfl⟩

/-! ## C10 — `list` prefix bound -/

theorem charListLt_irrefl : ∀ l : List Char, charListLt l l = false := by
  intro l
  induction l with
  | nil => rfl
  | cons a as ih => simp [charListLt, ih, lt_irrefl]

theorem charListLt_trans : ∀ a b c : List Char,
    charListLt a b = true → charListLt b c = true → charListLt a c = true := by
  intro a
  induction a with
  | nil =>
    intro b c hab hbc
    cases b with
    | nil => exact hbc
    | cons y ys =>
      cases c with
      | nil => cases hbc
      | cons z zs => rfl
  | cons x xs ih =>
    intro b c hab hbc
    cases b with
    | nil => cases hab
    | cons y ys =>
      cases c with
      | nil => cases hbc
      | cons z zs =>
        simp only [charListLt, Bool.or_eq_true, decide_eq_true_eq, Bool.and_eq_true,
          beq_iff_eq] at hab hbc ⊢
        rcases hab with h1 | ⟨rfl, h1⟩
        · rcases hbc with h2 | ⟨rfl, h2⟩
          · exact Or.inl (lt_trans h1 h2)
          · exact Or.inl h1
        · rcases hbc with h2 | ⟨rfl, h2⟩
          · exact Or.inl h2
          · exact Or.inr ⟨rfl, ih ys zs h1 h2⟩

theorem charListLt_trichotomy : ∀ a b : List Char,
    charListLt a b = true ∨ a = b ∨ charListLt b a = true := by
  intro a
  induction a with
  | nil =>
    intro b
    cases b with
    | nil => exact Or.inr (Or.inl rfl)
    | cons y ys => exact Or.inl rfl
  | cons x xs ih =>
    intro b
    cases b with
    | nil => exact Or.inr (Or.inr rfl)
    | cons y ys =>
      rcases lt_trichotomy x y with h | rfl | h
      · exact Or.inl (by simp [charListLt, h])
      · rcases ih ys with h2 | rfl | h2
        · exact Or.inl (by simp [charListLt, h2])
        · exact Or.inr (Or.inl rfl)
        · exact Or.inr (Or.inr (by simp [charListLt, h2]))
      · exact Or.inr (Or.inr (by simp [charListLt, h]))

theorem charListLt_append_left : ∀ a b : List Char, charListLt (a ++ b) a = false := by
  intro a b
  induction a with
  | nil => cases b <;> rfl
  | cons x xs ih => simp [charListLt, ih, lt_irrefl]

theorem pathLe_eq_true_iff (a b : String) :
    (pathLe a b = true) ↔ charListLt b.data a.data = false := by
  unfold pathLe pathLt
  cases h : charListLt b.data a.data <;> simp [h]

instance : IsTrans FileRow fileRowLe := by
  constructor
  intro a b c hab hbc
  unfold fileRowLe at *
  rw [pathLe_eq_true_iff] at hab hbc ⊢
  by_contra hca
  rw [← ne_eq, Bool.ne_false_iff] at hca
  rcases charListLt_trichotomy b.path.data a.path.data with h | heq | h
  · rw [h] at hab; cases hab
  · rw [heq] at hbc
    rw [hbc] at hca; cases hca
  · have := charListLt_trans _ _ _ hca h
    rw [this] at hbc; cases hbc

instance : IsTotal FileRow fileRowLe := by
  constructor
  intro a b
  unfold fileRowLe
  rw [pathLe_eq_true_iff, pathLe_eq_true_iff]
  by_contra hcon
  push_neg at hcon
  obtain ⟨h1, h2⟩ := hcon
  rw [Bool.ne_false_iff] at h1 h2
  have := charListLt_trans _ _ _ h1 h2
  rw [charListLt_irrefl] at this
  cases this

/-- C10: the `list` index scan is in ascending path order; with a
non-empty prefix a file is scanned iff its path lies in
`[prefix, prefix + "￿")`, so a path that extends `prefix + "￿"` is
excluded even though it starts with the prefix; with an empty prefix all
files are scanned. -/
theorem list_range_and_order (db : DB) (pre : String) :
    List.Pairwise fileRowLe (listQuery db pre) ∧
    (pre ≠ "" → ∀ f : FileRow, f ∈ listQuery db pre ↔
      f ∈ db.files ∧ pathLe pre f.path = true ∧ pathLt f.path (pre ++ maxCharStr) = true) ∧
    (pre = "" → ∀ f : FileRow, f ∈ listQuery db pre ↔ f ∈ db.files) ∧
    (pre ≠ "" → ∀ f ∈ db.files, (∃ rest : String, f.path = pre ++ maxCharStr ++ rest) →
      f ∉ listQuery db pre) := by
  have hperm := List.perm_insertionSort fileRowLe db.files
  have hsorted := List.sorted_insertionSort fileRowLe db.files
  refine ⟨?_, ?_, ?_, ?_⟩
  · unfold listQuery
    split
    · exact hsorted
    · exact List.Pairwise.filter _ hsorted
  · intro hne f
    have hne' : (pre == "") = false := by
      cases h : pre == "" with
      | true => exact absurd (eq_of_beq h) hne
      | false => rfl
    unfold listQuery
    rw [if_neg (by rw [hne']; exact Bool.false_ne_true)]
    rw [List.mem_filter]
    unfold filesIndexAsc
    rw [hperm.mem_iff]
    simp [Bool.and_eq_true]
  · intro he f
    unfold listQuery
    rw [if_pos (by rw [he]; rfl)]
    unfold filesIndexAsc
    exact hperm.mem_iff
  · intro hne f hf hex hmem
    obtain ⟨rest, hrest⟩ := hex
    have hne' : (pre == "") = false := by
      cases h : pre == "" with
      | true => exact absurd (eq_of_beq h) hne
      | false => rfl
    unfold listQuery at hmem
    rw [if_neg (by rw [hne']; exact Bool.false_ne_true)] at hmem
    rw [List.mem_filter] at hmem
    have hlt : pathLt f.path (pre ++ maxCharStr) = true := by
      have h3 := hmem.2
      simp only [Bool.and_eq_true] at h3
      exact h3.2
    unfold pathLt at hlt
    rw [hrest] at hlt
    rw [String.data_append, String.data_append] at hlt
    rw [charListLt_append_left] at hlt
    cases hlt

/-- A store with four files, one of whose paths has `"￿"` right after the
prefix `"a"`. -/
def dbListFixture : DB :=
  ⟨[⟨0, "ab", "b"⟩, ⟨1, "aa", "b"⟩, ⟨2, "a" ++ maxCharStr ++ "z", "b"⟩, ⟨3, "b", "b"⟩],
   [⟨4, "b", "t", 1, 3, 0⟩], [], 5⟩

/-- Witness for C10: under prefix `"a"`, `"aa"` is scanned, the path
`"a￿z"` is excluded, and under the empty prefix `"b"` is scanned. -/
theorem list_range_and_order_witness :
    (⟨1, "aa", "b"⟩ : FileRow) ∈ listQuery dbListFixture "a" ∧
    (⟨2, "a" ++ maxCharStr ++ "z", "b"⟩ : FileRow) ∉ listQuery dbListFixture "a" ∧
    (⟨3, "b", "b"⟩ : FileRow) ∈ listQuery dbListFixture "" :=
  ⟨((list_range_and_order dbListFixture "a").2.1 (by decide) _).mpr
      ⟨by decide, by decide, by decide⟩,
   (list_range_and_order dbListFixture "a").2.2.2 (by decide) _ (by decide) ⟨"z", rfl⟩,
   ((list_range_and_order dbListFixture "").2.2.1 rfl _).mpr (by decide)⟩

/-! ## C6 — GC sweep contract -/

theorem mem_okToDelete {α : Type} (batch : List α) (f : α → DeleteOutcome) (u : α) :
    (u ∈ ((batch.map (fun v => (v, f v))).filter
        (fun r => r.2 != DeleteOutcome.errored)).map Prod.fst) ↔
      (u ∈ batch ∧ f u ≠ DeleteOutcome.errored) := by
  rw [List.mem_map]
  constructor
  · rintro ⟨r, hr, rfl⟩
    rw [List.mem_filter] at hr
    obtain ⟨hmap, hne⟩ := hr
    rw [List.mem_map] at hmap
    obtain ⟨v, hv, rfl⟩ := hmap
    exact ⟨hv, by simpa using hne⟩
  · rintro ⟨hv, hne⟩
    refine ⟨(u, f u), ?_, rfl⟩
    rw [List.mem_filter]
    exact ⟨List.mem_map.mpr ⟨u, hv, rfl⟩, by simpa using hne⟩

theorem mem_filter_not_any_id {α : Type} (rows ok : List α) (idOf : α → Nat)
    (hnodup : (rows.map idOf).Nodup) (hsub : ∀ v ∈ ok, v ∈ rows) (u : α) (hu : u ∈ rows) :
    (u ∈ rows.filter (fun r => !(ok.any (fun v => idOf v == idOf r)))) ↔ u ∉ ok := by
  rw [List.mem_filter]
  constructor
  · rintro ⟨-, hpred⟩ hmem
    simp only [Bool.not_eq_true', List.any_eq_false] at hpred
    exact absurd (beq_self_eq_true (idOf u)) (by simpa using hpred u hmem)
  · intro hnot
    refine ⟨hu, ?_⟩
    simp only [Bool.not_eq_true', List.any_eq_false]
    intro v hv
    by_contra hbeq
    have heq : v = u := List.inj_on_of_nodup_map hnodup (hsub v hv) hu (by simpa using hbeq)
    exact hnot (heq ▸ hv)

theorem errorCount_zero {α : Type} (batch : List α) (f : α → DeleteOutcome) :
    ((batch.map (fun v => (v, f v))).countP (fun r => r.2 == DeleteOutcome.errored) = 0) ↔
      ∀ u ∈ batch, f u ≠ DeleteOutcome.errored := by
  rw [List.countP_map, List.countP_eq_zero]
  constructor
  · intro h u hu
    simpa using h u hu
  · intro h u hu
    simpa using h u hu



theorem findExpiredUploads_subset (db : DB) (t l : Nat) :
    ∀ u ∈ findExpiredUploads db t l, u ∈ db.uploads := by
  intro u hu
  unfold findExpiredUploads at hu
  have h1 := List.take_subset _ _ hu
  have h2 := List.mem_filter.mp h1
  exact (List.perm_insertionSort _ db.uploads).mem_iff.mp h2.1

theorem findOrphanedBlobs_subset (db : DB) (t : Int) (l : Nat) :
    ∀ b ∈ findOrphanedBlobs db t l, b ∈ db.blobs := by
  intro b hb
  unfold findOrphanedBlobs at hb
  have h1 := List.take_subset _ _ hb
  have h2 := List.mem_filter.mp h1
  exact (List.perm_insertionSort _ db.blobs).mem_iff.mp h2.1

theorem gc_upload_sweep_contract (cfg : StoredConfig) (now : Nat)
    (storeDelete : String → DeleteOutcome) (db : DB)
    (hfreeze : cfg.freezeGc.getD false = false)
    (hupNodup : (db.uploads.map (fun u => u.id)).Nodup) :
    (findExpiredUploads db now gcBatchSize).length ≤ gcBatchSize ∧
    (∀ u ∈ db.uploads,
      u ∈ (gcExpiredUploads (some cfg) now storeDelete db).1.uploads ↔
        ¬(u ∈ findExpiredUploads db now gcBatchSize ∧
          storeDelete u.blobId ≠ DeleteOutcome.errored)) ∧
    ((gcExpiredUploads (some cfg) now storeDelete db).2 = true ↔
      (findExpiredUploads db now gcBatchSize).length = gcBatchSize ∧
      ∀ u ∈ findExpiredUploads db now gcBatchSize,
        storeDelete u.blobId ≠ DeleteOutcome.errored) := by
  refine ⟨List.length_take_le _ _, ?_⟩
  unfold gcExpiredUploads
  simp only [hfreeze, Bool.false_eq_true, if_false]
  by_cases hemp : (findExpiredUploads db now gcBatchSize).isEmpty = true
  · rw [if_pos hemp]
    rw [List.isEmpty_iff] at hemp
    constructor
    · intro u hu
      simp [hemp, hu]
    · simp [hemp]
      intro h
      exact absurd h.symm (by decide)
  · rw [if_neg hemp]
    constructor
    · intro u hu
      simp only []
      split
      · rw [mem_filter_not_any_id db.uploads _ (fun r => r.id) hupNodup
          (fun v hv => findExpiredUploads_subset db now gcBatchSize v
            ((mem_okToDelete _ _ v).mp hv).1) u hu]
        rw [not_iff_not]
        exact mem_okToDelete _ _ u
      · rename_i hok
        simp only [gt_iff_lt, not_lt, Nat.le_zero, List.length_eq_zero] at hok
        constructor
        · intro _ hcon
          have hmem := (mem_okToDelete (findExpiredUploads db now gcBatchSize)
            (fun v => storeDelete v.blobId) u).mpr hcon
          rw [hok] at hmem
          cases hmem
        · intro _
          exact hu
    · simp only []
      rw [Bool.and_eq_true, beq_iff_eq, beq_iff_eq]
      rw [errorCount_zero]

theorem gc_blob_sweep_contract (cfg : StoredConfig) (now : Nat)
    (storeDelete : String → DeleteOutcome) (db : DB)
    (hfreeze : cfg.freezeGc.getD false = false)
    (hblNodup : (db.blobs.map (fun b => b.id)).Nodup) :
    (findOrphanedBlobs db ((now : Int) - ((cfg.blobGracePeriod.getD defaultBlobGracePeriodS : Nat) : Int) * 1000) gcBatchSize).length ≤ gcBatchSize ∧
    (∀ b ∈ db.blobs,
      b ∈ (gcOrphanedBlobs (some cfg) now storeDelete db).1.blobs ↔
        ¬(b ∈ findOrphanedBlobs db ((now : Int) - ((cfg.blobGracePeriod.getD defaultBlobGracePeriodS : Nat) : Int) * 1000) gcBatchSize ∧
          storeDelete b.blobId ≠ DeleteOutcome.errored)) ∧
    ((gcOrphanedBlobs (some cfg) now storeDelete db).2 = true ↔
      (findOrphanedBlobs db ((now : Int) - ((cfg.blobGracePeriod.getD defaultBlobGracePeriodS : Nat) : Int) * 1000) gcBatchSize).length = gcBatchSize ∧
      ∀ b ∈ findOrphanedBlobs db ((now : Int) - ((cfg.blobGracePeriod.getD defaultBlobGracePeriodS : Nat) : Int) * 1000) gcBatchSize,
        storeDelete b.blobId ≠ DeleteOutcome.errored) := by
  refine ⟨List.length_take_le _ _, ?_⟩
  unfold gcOrphanedBlobs
  simp only [hfreeze, Bool.false_eq_true, if_false]
  by_cases hemp : (findOrphanedBlobs db ((now : Int) - ((cfg.blobGracePeriod.getD defaultBlobGracePeriodS : Nat) : Int) * 1000) gcBatchSize).isEmpty = true
  · rw [if_pos hemp]
    rw [List.isEmpty_iff] at hemp
    constructor
    · intro b hb
      simp [hemp, hb]
    · simp [hemp]
      intro h
      exact absurd h.symm (by decide)
  · rw [if_neg hemp]
    constructor
    · intro b hb
      simp only []
      split
      · rw [mem_filter_not_any_id db.blobs _ (fun r => r.id) hblNodup
          (fun v hv => findOrphanedBlobs_subset db _ gcBatchSize v
            ((mem_okToDelete _ _ v).mp hv).1) b hb]
        rw [not_iff_not]
        exact mem_okToDelete _ _ b
      · rename_i hok
        simp only [gt_iff_lt, not_lt, Nat.le_zero, List.length_eq_zero] at hok
        constructor
        · intro _ hcon
          have hmem := (mem_okToDelete (findOrphanedBlobs db ((now : Int) - ((cfg.blobGracePeriod.getD defaultBlobGracePeriodS : Nat) : Int) * 1000) gcBatchSize)
            (fun v => storeDelete v.blobId) b).mpr hcon
          rw [hok] at hmem
          cases hmem
        · intro _
          exact hb
    · simp only []
      rw [Bool.and_eq_true, beq_iff_eq, beq_iff_eq]
      rw [errorCount_zero]

/-- C6: the GC sweep contract, for Upload GC and Blob GC.  With a stored,
unfrozen config: the batch is at most `GC_BATCH_SIZE = 100` candidates;
a metadata row is removed exactly when its item was in the batch and its
individually-caught storage delete did not throw (`deleted` or
`not_found`), so errored items keep their rows; and the follow-up run is
scheduled iff the batch was full and no item's storage delete threw. -/
theorem gc_sweep_batch_contract (cfg : StoredConfig) (now : Nat)
    (storeDelete : String → DeleteOutcome) (db : DB)
    (hfreeze : cfg.freezeGc.getD false = false)
    (hupNodup : (db.uploads.map (fun u => u.id)).Nodup)
    (hblNodup : (db.blobs.map (fun b => b.id)).Nodup) :
    ((findExpiredUploads db now gcBatchSize).length ≤ gcBatchSize ∧
     (∀ u ∈ db.uploads,
       u ∈ (gcExpiredUploads (some cfg) now storeDelete db).1.uploads ↔
         ¬(u ∈ findExpiredUploads db now gcBatchSize ∧
           storeDelete u.blobId ≠ DeleteOutcome.errored)) ∧
     ((gcExpiredUploads (some cfg) now storeDelete db).2 = true ↔
       (findExpiredUploads db now gcBatchSize).length = gcBatchSize ∧
       ∀ u ∈ findExpiredUploads db now gcBatchSize,
         storeDelete u.blobId ≠ DeleteOutcome.errored)) ∧
    ((findOrphanedBlobs db
        ((now : Int) - ((cfg.blobGracePeriod.getD defaultBlobGracePeriodS : Nat) : Int) * 1000)
        gcBatchSize).length ≤ gcBatchSize ∧
     (∀ b ∈ db.blobs,
       b ∈ (gcOrphanedBlobs (some cfg) now storeDelete db).1.blobs ↔
         ¬(b ∈ findOrphanedBlobs db
             ((now : Int) - ((cfg.blobGracePeriod.getD defaultBlobGracePeriodS : Nat) : Int) * 1000)
             gcBatchSize ∧
           storeDelete b.blobId ≠ DeleteOutcome.errored)) ∧
     ((gcOrphanedBlobs (some cfg) now storeDelete db).2 = true ↔
       (findOrphanedBlobs db
         ((now : Int) - ((cfg.blobGracePeriod.getD defaultBlobGracePeriodS : Nat) : Int) * 1000)
         gcBatchSize).length = gcBatchSize ∧
       ∀ b ∈ findOrphanedBlobs db
           ((now : Int) - ((cfg.blobGracePeriod.getD defaultBlobGracePeriodS : Nat) : Int) * 1000)
           gcBatchSize,
         storeDelete b.blobId ≠ DeleteOutcome.errored)) :=
  ⟨gc_upload_sweep_contract cfg now storeDelete db hfreeze hupNodup,
   gc_blob_sweep_contract cfg now storeDelete db hfreeze hblNodup⟩

/-- GC fixtures: a 1-hour grace period, a storage backend that throws on
`u1` and deletes everything else, two expired uploads, and two orphaned
blobs on either side of the grace period at `now = 36000000`. -/
def gcCfg : StoredConfig := ⟨some 3600, none⟩

def gcStoreDelete : String → DeleteOutcome :=
  fun b => if b == "u1" then .errored else .deleted

def dbGcUploads : DB := ⟨[], [], [⟨0, "u1", 500, none, none⟩, ⟨1, "u2", 600, none, none⟩], 2⟩

def dbGcBlobs : DB :=
  ⟨[], [⟨0, "old", "t", 1, 0, 1000⟩, ⟨1, "young", "t", 1, 0, 35000000⟩], [], 2⟩

/-- Witness for C6: the upload whose storage delete threw keeps its row,
the one whose delete succeeded loses it, and no follow-up run is
scheduled for the non-full batch. -/
theorem gc_sweep_batch_contract_witness :
    (⟨0, "u1", 500, none, none⟩ : UploadRow) ∈
      (gcExpiredUploads (some gcCfg) 1000 gcStoreDelete dbGcUploads).1.uploads ∧
    (⟨1, "u2", 600, none, none⟩ : UploadRow) ∉
      (gcExpiredUploads (some gcCfg) 1000 gcStoreDelete dbGcUploads).1.uploads :=
  ⟨((gc_sweep_batch_contract gcCfg 1000 gcStoreDelete dbGcUploads (by decide) (by decide)
      (by decide)).1.2.1 ⟨0, "u1", 500, none, none⟩ (by decide)).mpr (by decide),
   fun hmem =>
     (by decide : ¬¬((⟨1, "u2", 600, none, none⟩ : UploadRow) ∈
         findExpiredUploads dbGcUploads 1000 gcBatchSize ∧
         gcStoreDelete "u2" ≠ DeleteOutcome.errored))
       (((gc_sweep_batch_contract gcCfg 1000 gcStoreDelete dbGcUploads (by decide) (by decide)
         (by decide)).1.2.1 ⟨1, "u2", 600, none, none⟩ (by decide)).mp hmem)⟩

/-- C7: Blob GC candidate selection.  A run with a stored, unfrozen
config selects (up to the batch limit) only blob rows with `refCount = 0`
and `updatedAt` strictly before `now - gracePeriod*1000` with the grace
period from `config.blobGracePeriod` (defaulting to 86400 s): a blob
orphaned less than the grace period ago is never selected; when the
qualifying rows fit in the batch, every blob orphaned longer than the
grace period is selected; and every row the run deletes comes from the
selection. -/
theorem blob_gc_grace_period (cfg : StoredConfig) (now : Nat)
    (storeDelete : String → DeleteOutcome) (db : DB)
    (hfreeze : cfg.freezeGc.getD false = false)
    (hblNodup : (db.blobs.map (fun b => b.id)).Nodup) :
    (∀ b ∈ findOrphanedBlobs db
        ((now : Int) - ((cfg.blobGracePeriod.getD defaultBlobGracePeriodS : Nat) : Int) * 1000)
        gcBatchSize,
      b.refCount = 0 ∧
        (b.updatedAt : Int) <
          (now : Int) - ((cfg.blobGracePeriod.getD defaultBlobGracePeriodS : Nat) : Int) * 1000) ∧
    (∀ b : BlobRow,
      (now : Int) - ((cfg.blobGracePeriod.getD defaultBlobGracePeriodS : Nat) : Int) * 1000 ≤
          (b.updatedAt : Int) →
      b ∉ findOrphanedBlobs db
        ((now : Int) - ((cfg.blobGracePeriod.getD defaultBlobGracePeriodS : Nat) : Int) * 1000)
        gcBatchSize) ∧
    ((db.blobs.filter (fun b => b.refCount == 0 &&
        decide ((b.updatedAt : Int) <
          (now : Int) - ((cfg.blobGracePeriod.getD defaultBlobGracePeriodS : Nat) : Int) * 1000))).length
        ≤ gcBatchSize →
      ∀ b ∈ db.blobs, b.refCount = 0 →
        (b.updatedAt : Int) <
          (now : Int) - ((cfg.blobGracePeriod.getD defaultBlobGracePeriodS : Nat) : Int) * 1000 →
        b ∈ findOrphanedBlobs db
          ((now : Int) - ((cfg.blobGracePeriod.getD defaultBlobGracePeriodS : Nat) : Int) * 1000)
          gcBatchSize) ∧
    (∀ b ∈ db.blobs, b ∉ (gcOrphanedBlobs (some cfg) now storeDelete db).1.blobs →
      b ∈ findOrphanedBlobs db
        ((now : Int) - ((cfg.blobGracePeriod.getD defaultBlobGracePeriodS : Nat) : Int) * 1000)
        gcBatchSize) := by
  constructor
  · intro b hb
    unfold findOrphanedBlobs at hb
    have h1 := List.take_subset _ _ hb
    have h2 := (List.mem_filter.mp h1).2
    simp only [Bool.and_eq_true, beq_iff_eq, decide_eq_true_eq] at h2
    exact h2
  refine ⟨?_, ?_, ?_⟩
  · intro b hge hb
    unfold findOrphanedBlobs at hb
    have h1 := List.take_subset _ _ hb
    have h2 := (List.mem_filter.mp h1).2
    simp only [Bool.and_eq_true, beq_iff_eq, decide_eq_true_eq] at h2
    exact absurd h2.2 (not_lt.mpr hge)
  · intro hlen b hb h0 hlt
    unfold findOrphanedBlobs
    have hperm : (blobsIndexByUpdatedAt db).Perm db.blobs := List.perm_insertionSort _ _
    have hmemf : b ∈ (blobsIndexByUpdatedAt db).filter (fun b => b.refCount == 0 &&
        decide ((b.updatedAt : Int) <
          (now : Int) - ((cfg.blobGracePeriod.getD defaultBlobGracePeriodS : Nat) : Int) * 1000)) := by
      rw [List.mem_filter]
      refine ⟨hperm.mem_iff.mpr hb, ?_⟩
      simp only [Bool.and_eq_true, beq_iff_eq, decide_eq_true_eq]
      exact ⟨h0, hlt⟩
    have hleneq : ((blobsIndexByUpdatedAt db).filter (fun b => b.refCount == 0 &&
        decide ((b.updatedAt : Int) <
          (now : Int) - ((cfg.blobGracePeriod.getD defaultBlobGracePeriodS : Nat) : Int) * 1000))).length ≤ gcBatchSize := by
      rw [(hperm.filter _).length_eq]
      exact hlen
    rw [List.take_of_length_le hleneq]
    exact hmemf
  · intro b hb hnot
    by_contra hnotsel
    exact hnot (((gc_blob_sweep_contract cfg now storeDelete db hfreeze hblNodup).2.1 b hb).mpr
      (fun hcon => hnotsel hcon.1))

/-- Witness for C7: with a 1-hour grace period at `now = 36000000` the
blob orphaned at 1000 is selected and the blob orphaned at 35000000 (30
minutes ago) is not. -/
theorem blob_gc_grace_period_witness :
    (⟨0, "old", "t", 1, 0, 1000⟩ : BlobRow) ∈
      findOrphanedBlobs dbGcBlobs
        (((36000000 : Nat) : Int) -
          ((gcCfg.blobGracePeriod.getD defaultBlobGracePeriodS : Nat) : Int) * 1000)
        gcBatchSize ∧
    (⟨1, "young", "t", 1, 0, 35000000⟩ : BlobRow) ∉
      findOrphanedBlobs dbGcBlobs
        (((36000000 : Nat) : Int) -
          ((gcCfg.blobGracePeriod.getD defaultBlobGracePeriodS : Nat) : Int) * 1000)
        gcBatchSize :=
  ⟨(blob_gc_grace_period gcCfg 36000000 gcStoreDelete dbGcBlobs (by decide)
      (by decide)).2.2.1 (by decide) ⟨0, "old", "t", 1, 0, 1000⟩ (by decide) (by decide)
      (by decide),
   (blob_gc_grace_period gcCfg 36000000 gcStoreDelete dbGcBlobs (by decide)
      (by decide)).2.1 ⟨1, "young", "t", 1, 0, 35000000⟩ (by decide)⟩

/-! ## Commit-path structure: shapes of the apply-loop steps (C9, C5) -/

/-- What every commit step does to an existing `blobs` row: identity,
blob id and immutable metadata survive; the refCount never rises. -/
def keepsBlob (r r' : BlobRow) : Prop :=
  r'.id = r.id ∧ r'.blobId = r.blobId ∧ r'.contentType = r.contentType ∧
  r'.size = r.size ∧ r'.refCount ≤ r.refCount

theorem keepsBlob_refl (r : BlobRow) : keepsBlob r r := ⟨rfl, rfl, rfl, rfl, le_refl _⟩

theorem keepsBlob_trans {a b c : BlobRow} (h1 : keepsBlob a b) (h2 : keepsBlob b c) :
    keepsBlob a c :=
  ⟨h2.1.trans h1.1, h2.2.1.trans h1.2.1, h2.2.2.1.trans h1.2.2.1,
   h2.2.2.2.1.trans h1.2.2.2.1, h2.2.2.2.2.trans h1.2.2.2.2⟩

theorem getUniqueBy_ok_none {α : Type} {p : α → Bool} {rows : List α}
    (h : getUniqueBy p rows = .ok none) : rows.filter p = [] := by
  unfold getUniqueBy at h
  split at h <;> simp_all

theorem getUniqueBy_ok_some {α : Type} {p : α → Bool} {rows : List α} {u : α}
    (h : getUniqueBy p rows = .ok (some u)) : rows.filter p = [u] := by
  unfold getUniqueBy at h
  split at h <;> simp_all

theorem patchFileRow_ok_shape {db : DB} {id : Nat} {f : FileRow → FileRow} {db' : DB}
    (h : patchFileRow db id f = .ok db') :
    db'.blobs = db.blobs ∧ db'.uploads = db.uploads := by
  unfold patchFileRow at h
  split at h <;> cases h
  exact ⟨rfl, rfl⟩

theorem patchBlobRow_ok_shape {db : DB} {id : Nat} {f : BlobRow → BlobRow} {db' : DB}
    (h : patchBlobRow db id f = .ok db') :
    db'.blobs = db.blobs.map (fun r => if r.id == id then f r else r) ∧
    db'.uploads = db.uploads ∧ db'.files = db.files := by
  unfold patchBlobRow at h
  split at h <;> cases h
  exact ⟨rfl, rfl, rfl⟩

theorem deleteUploadRow_ok_shape {db : DB} {id : Nat} {db' : DB}
    (h : deleteUploadRow db id = .ok db') :
    db'.blobs = db.blobs ∧ db'.files = db.files ∧
    db'.uploads = db.uploads.filter (fun r => !(r.id == id)) := by
  unfold deleteUploadRow at h
  split at h <;> cases h
  exact ⟨rfl, rfl, rfl⟩

theorem commitFileStep_shape {db : DB} {now : Nat} {e : CommitEntry} {db' : DB}
    (h : commitFileStep db now e = .ok db') :
    (∃ g : BlobRow → BlobRow, db'.blobs = db.blobs.map g ∧ ∀ r, keepsBlob r (g r)) ∧
    db'.uploads = db.uploads := by
  unfold commitFileStep at h
  split at h
  · cases h
  · split at h
    · cases h
    · rename_i dbp hpatch
      split at h
      · cases h
      · cases h
        obtain ⟨hb, hu⟩ := patchFileRow_ok_shape hpatch
        exact ⟨⟨id, by rw [List.map_id]; exact hb, fun r => keepsBlob_refl r⟩, hu⟩
      · rename_i b hblob
        obtain ⟨hb, hu⟩ := patchFileRow_ok_shape hpatch
        obtain ⟨hb2, hu2, _⟩ := patchBlobRow_ok_shape h
        refine ⟨⟨fun r => if r.id == b.id then
            { r with refCount := r.refCount - 1, updatedAt := now } else r, ?_, ?_⟩, ?_⟩
        · rw [hb2, hb]
        · intro r
          by_cases hid : (r.id == b.id) = true
          · simp only [hid, if_pos]
            exact ⟨rfl, rfl, rfl, rfl, sub_le_self _ zero_le_one⟩
          · simp only [hid]
            simp only [Bool.false_eq_true, if_false]
            exact keepsBlob_refl r
        · rw [hu2, hu]
  · cases h
    exact ⟨⟨id, by rw [List.map_id]; rfl, fun r => keepsBlob_refl r⟩, rfl⟩

theorem commitUploadStep_shape {db : DB} {e : CommitEntry} {db' : DB}
    (h : commitUploadStep db e = .ok db') :
    db'.blobs = db.blobs ∧ db'.files = db.files ∧
    (∀ x ∈ db'.uploads, x ∈ db.uploads) ∧
    db'.uploads.filter (fun r => r.blobId == e.blobId) = [] := by
  unfold commitUploadStep at h
  split at h
  · cases h
  · cases h
    rename_i hnone
    refine ⟨rfl, rfl, fun x hx => hx, getUniqueBy_ok_none hnone⟩
  · rename_i u hsome
    obtain ⟨hb, hf, hu⟩ := deleteUploadRow_ok_shape h
    refine ⟨hb, hf, ?_, ?_⟩
    · intro x hx
      rw [hu] at hx
      exact (List.mem_filter.mp hx).1
    · rw [List.eq_nil_iff_forall_not_mem]
      intro x hx
      rw [List.mem_filter] at hx
      obtain ⟨hx1, hx2⟩ := hx
      rw [hu, List.mem_filter] at hx1
      obtain ⟨hmem, hid⟩ := hx1
      have hxu : x ∈ db.uploads.filter (fun r => r.blobId == e.blobId) :=
        List.mem_filter.mpr ⟨hmem, hx2⟩
      rw [getUniqueBy_ok_some hsome] at hxu
      rw [List.mem_singleton] at hxu
      subst hxu
      simp at hid

/-- The row `insertBlob` appends for an entry. -/
def freshBlobRow (db : DB) (e : CommitEntry) (now : Nat) : BlobRow :=
  ⟨db.nextId, e.blobId, e.contentType, e.size, 1, now⟩

theorem commitApplyOne_shape {db : DB} {now : Nat} {e : CommitEntry} {db' : DB}
    (h : commitApplyOne db now e = .ok db') :
    (∃ g : BlobRow → BlobRow,
      db'.blobs = (db.blobs ++ [freshBlobRow db e now]).map g ∧ ∀ r, keepsBlob r (g r)) ∧
    (∀ x ∈ db'.uploads, x ∈ db.uploads) ∧
    db'.uploads.filter (fun r => r.blobId == e.blobId) = [] := by
  unfold commitApplyOne at h
  split at h
  · cases h
  · rename_i db2 hfile
    obtain ⟨⟨g, hg, hkeeps⟩, hu⟩ := commitFileStep_shape hfile
    obtain ⟨hb3, _, hu3, hfil3⟩ := commitUploadStep_shape h
    refine ⟨⟨g, ?_, hkeeps⟩, ?_, hfil3⟩
    · rw [hb3, hg]
      rfl
    · intro x hx
      have := hu3 x hx
      rw [hu] at this
      exact this

theorem commitApply_blob_count {now : Nat} {entries : List CommitEntry} :
    ∀ {db db' : DB}, commitApply db now entries = .ok db' → ∀ β : String,
      db'.blobs.countP (fun b => b.blobId == β) =
        db.blobs.countP (fun b => b.blobId == β) +
          entries.countP (fun e => e.blobId == β) := by
  induction entries with
  | nil =>
    intro db db' h β
    cases h
    simp
  | cons e rest ih =>
    intro db db' h β
    unfold commitApply at h
    split at h
    · cases h
    · rename_i db1 hone
      obtain ⟨⟨g, hg, hkeeps⟩, _, _⟩ := commitApplyOne_shape hone
      have hcount1 : db1.blobs.countP (fun b => b.blobId == β) =
          db.blobs.countP (fun b => b.blobId == β) +
            (if e.blobId == β then 1 else 0) := by
        rw [hg, List.countP_map]
        have hpt : ∀ r ∈ db.blobs ++ [freshBlobRow db e now],
            (((fun b => b.blobId == β) ∘ g) r = true ↔ (fun b => b.blobId == β) r = true) := by
          intro r _
          simp only [Function.comp_apply]
          rw [(hkeeps r).2.1]
        rw [List.countP_congr hpt]
        rw [List.countP_append]
        simp [freshBlobRow, List.countP_cons]
      rw [ih h β, hcount1, List.countP_cons]
      simp only [Nat.add_assoc]
      congr 1
      omega

theorem commitApply_keeps_blobs {now : Nat} {entries : List CommitEntry} :
    ∀ {db db' : DB}, commitApply db now entries = .ok db' →
      ∀ b ∈ db.blobs, ∃ b' ∈ db'.blobs, keepsBlob b b' := by
  induction entries with
  | nil =>
    intro db db' h b hb
    cases h
    exact ⟨b, hb, keepsBlob_refl b⟩
  | cons e rest ih =>
    intro db db' h b hb
    unfold commitApply at h
    split at h
    · cases h
    · rename_i db1 hone
      obtain ⟨⟨g, hg, hkeeps⟩, _, _⟩ := commitApplyOne_shape hone
      have hb1 : g b ∈ db1.blobs := by
        rw [hg]
        exact List.mem_map.mpr ⟨b, List.mem_append.mpr (Or.inl hb), rfl⟩
      obtain ⟨b', hb', hk⟩ := ih h (g b) hb1
      exact ⟨b', hb', keepsBlob_trans (hkeeps b) hk⟩

theorem commitApply_uploads_subset {now : Nat} {entries : List CommitEntry} :
    ∀ {db db' : DB}, commitApply db now entries = .ok db' →
      ∀ x ∈ db'.uploads, x ∈ db.uploads := by
  induction entries with
  | nil =>
    intro db db' h x hx
    cases h
    exact hx
  | cons e rest ih =>
    intro db db' h x hx
    unfold commitApply at h
    split at h
    · cases h
    · rename_i db1 hone
      obtain ⟨_, hsub, _⟩ := commitApplyOne_shape hone
      exact hsub x (ih h x hx)

theorem commitApply_entry_blob_present {now : Nat} {entries : List CommitEntry} :
    ∀ {db db' : DB}, commitApply db now entries = .ok db' →
      ∀ e ∈ entries, ∃ b ∈ db'.blobs, b.blobId = e.blobId ∧
        b.contentType = e.contentType ∧ b.size = e.size := by
  induction entries with
  | nil =>
    intro db db' h e he
    cases he
  | cons e0 rest ih =>
    intro db db' h e he
    unfold commitApply at h
    split at h
    · cases h
    · rename_i db1 hone
      rcases List.mem_cons.mp he with rfl | hrest
      · obtain ⟨⟨g, hg, hkeeps⟩, _, _⟩ := commitApplyOne_shape hone
        have hfresh : g (freshBlobRow db e now) ∈ db1.blobs := by
          rw [hg]
          exact List.mem_map.mpr ⟨freshBlobRow db e now,
            List.mem_append.mpr (Or.inr (List.mem_singleton.mpr rfl)), rfl⟩
        obtain ⟨b', hb', hk⟩ := commitApply_keeps_blobs h _ hfresh
        have hk0 := keepsBlob_trans (hkeeps (freshBlobRow db e now)) hk
        exact ⟨b', hb', hk0.2.1, hk0.2.2.1, hk0.2.2.2.1⟩
      · exact ih h e hrest

theorem commitApply_upload_consumed {now : Nat} {entries : List CommitEntry} :
    ∀ {db db' : DB}, commitApply db now entries = .ok db' →
      ∀ e ∈ entries, db'.uploads.filter (fun r => r.blobId == e.blobId) = [] := by
  induction entries with
  | nil =>
    intro db db' h e he
    cases he
  | cons e0 rest ih =>
    intro db db' h e he
    unfold commitApply at h
    split at h
    · cases h
    · rename_i db1 hone
      rcases List.mem_cons.mp he with rfl | hrest
      · obtain ⟨_, _, hfil⟩ := commitApplyOne_shape hone
        rw [List.eq_nil_iff_forall_not_mem]
        intro x hx
        rw [List.mem_filter] at hx
        have hx1 := commitApply_uploads_subset h x hx.1
        have : x ∈ db1.uploads.filter (fun r => r.blobId == e.blobId) :=
          List.mem_filter.mpr ⟨hx1, hx.2⟩
        rw [hfil] at this
        cases this
      · exact ih h e hrest

/-- The `missingBlobs` error constructor, as a predicate. -/
def Err.isMissingBlobsErr : Err → Bool
  | .missingBlobs _ => true
  | _ => false

theorem getUniqueBy_error_eq {α : Type} {p : α → Bool} {rows : List α} {e : Err}
    (h : getUniqueBy p rows = .error e) : e = .uniqueViolation := by
  unfold getUniqueBy at h
  split at h <;> cases h
  rfl

theorem patchFileRow_error_eq {db : DB} {id : Nat} {f : FileRow → FileRow} {e : Err}
    (h : patchFileRow db id f = .error e) : e = .patchMissing := by
  unfold patchFileRow at h
  split at h <;> cases h
  rfl

theorem patchBlobRow_error_eq {db : DB} {id : Nat} {f : BlobRow → BlobRow} {e : Err}
    (h : patchBlobRow db id f = .error e) : e = .patchMissing := by
  unfold patchBlobRow at h
  split at h <;> cases h
  rfl

theorem deleteUploadRow_error_eq {db : DB} {id : Nat} {e : Err}
    (h : deleteUploadRow db id = .error e) : e = .deleteMissing := by
  unfold deleteUploadRow at h
  split at h <;> cases h
  rfl

theorem commitFileStep_error_not_missing {db : DB} {now : Nat} {e : CommitEntry} {err : Err}
    (h : commitFileStep db now e = .error err) : err.isMissingBlobsErr = false := by
  unfold commitFileStep at h
  split at h
  · rename_i heq
    cases h
    rw [getUniqueBy_error_eq heq]
    rfl
  · split at h
    · rename_i heq
      cases h
      rw [patchFileRow_error_eq heq]
      rfl
    · split at h
      · rename_i heq
        cases h
        rw [getUniqueBy_error_eq heq]
        rfl
      · cases h
      · rw [patchBlobRow_error_eq h]
        rfl
  · cases h

theorem commitUploadStep_error_not_missing {db : DB} {e : CommitEntry} {err : Err}
    (h : commitUploadStep db e = .error err) : err.isMissingBlobsErr = false := by
  unfold commitUploadStep at h
  split at h
  · rename_i heq
    cases h
    rw [getUniqueBy_error_eq heq]
    rfl
  · cases h
  · rw [deleteUploadRow_error_eq h]
    rfl

theorem commitApplyOne_error_not_missing {db : DB} {now : Nat} {e : CommitEntry} {err : Err}
    (h : commitApplyOne db now e = .error err) : err.isMissingBlobsErr = false := by
  unfold commitApplyOne at h
  split at h
  · rename_i heq
    cases h
    exact commitFileStep_error_not_missing heq
  · exact commitUploadStep_error_not_missing h

theorem commitApply_error_not_missing {now : Nat} {entries : List CommitEntry} :
    ∀ {db : DB} {err : Err}, commitApply db now entries = .error err →
      err.isMissingBlobsErr = false := by
  induction entries with
  | nil =>
    intro db err h
    cases h
  | cons e rest ih =>
    intro db err h
    unfold commitApply at h
    split at h
    · rename_i heq
      cases h
      exact commitApplyOne_error_not_missing heq
    · exact ih h

theorem commitCasOne_some_not_missing {db : DB} {e : CommitEntry} {err : Err}
    (h : commitCasOne db e = some err) : err.isMissingBlobsErr = false := by
  unfold commitCasOne at h
  split at h
  · cases h
  · split at h
    · rename_i heq
      cases h
      rw [getUniqueBy_error_eq heq]
      rfl
    · split at h
      · cases h
        rfl
      · cases h

theorem commitCasCheck_some_not_missing {db : DB} {entries : List CommitEntry} :
    ∀ {err : Err}, commitCasCheck db entries = some err → err.isMissingBlobsErr = false := by
  induction entries with
  | nil =>
    intro err h
    cases h
  | cons e rest ih =>
    intro err h
    unfold commitCasCheck at h
    split at h
    · rename_i hfail
      cases h
      exact commitCasOne_some_not_missing hfail
    · exact ih h

theorem commitFilesInternal_ok_apply {db : DB} {now : Nat} {entries : List CommitEntry}
    {db' : DB} (h : commitFilesInternal db now entries = .ok db') :
    commitApply db now entries = .ok db' := by
  unfold commitFilesInternal at h
  split at h
  · cases h
  · exact h

theorem commitFilesInternal_error_not_missing {db : DB} {now : Nat}
    {entries : List CommitEntry} {err : Err}
    (h : commitFilesInternal db now entries = .error err) :
    err.isMissingBlobsErr = false := by
  unfold commitFilesInternal at h
  split at h
  · rename_i heq
    cases h
    exact commitCasCheck_some_not_missing heq
  · exact commitApply_error_not_missing h

/-- Two commit entries sharing one blob id, and the store they produce
from the empty store. -/
def twoEntriesSameBlob : List CommitEntry :=
  [⟨"/a", "b1", none, "text/plain", 5⟩, ⟨"/c", "b1", none, "text/plain", 5⟩]

def dbAfterDoubleCommit : DB :=
  ⟨[⟨1, "/a", "b1"⟩, ⟨3, "/c", "b1"⟩],
   [⟨0, "b1", "text/plain", 5, 1, 1000⟩, ⟨2, "b1", "text/plain", 5, 1, 1000⟩], [], 4⟩

/-- C9: the commit mutation inserts a brand-new `blobs` row per entry,
unconditionally.  On success the number of blob rows carrying a blob id
grows by exactly the number of entries committing that id, no existing
row's refCount is ever incremented (identity, blob id and metadata are
preserved and the refCount never rises), and committing the same blob id
at two paths in one call concretely yields two rows for that id, each
inserted with `refCount = 1`. -/
theorem commit_inserts_fresh_blob_row_per_entry :
    (∀ (db : DB) (now : Nat) (entries : List CommitEntry) (db' : DB),
      commitFilesInternal db now entries = .ok db' →
      (∀ β : String, db'.blobs.countP (fun b => b.blobId == β) =
        db.blobs.countP (fun b => b.blobId == β) +
          entries.countP (fun e => e.blobId == β)) ∧
      (∀ b ∈ db.blobs, ∃ b' ∈ db'.blobs, keepsBlob b b')) ∧
    (commitFilesInternal DB.empty 1000 twoEntriesSameBlob = .ok dbAfterDoubleCommit ∧
      dbAfterDoubleCommit.blobs.countP (fun b => b.blobId == "b1") = 2 ∧
      ∀ b ∈ dbAfterDoubleCommit.blobs, b.refCount = 1) :=
  ⟨fun _ _ _ _ h =>
    ⟨commitApply_blob_count (commitFilesInternal_ok_apply h),
     commitApply_keeps_blobs (commitFilesInternal_ok_apply h)⟩,
   rfl, rfl, by decide⟩

/-- Witness for C9: the double commit of `b1` adds exactly two `b1`
rows. -/
theorem commit_inserts_fresh_blob_row_per_entry_witness :
    dbAfterDoubleCommit.blobs.countP (fun b => b.blobId == "b1") =
      DB.empty.blobs.countP (fun b => b.blobId == "b1") +
        twoEntriesSameBlob.countP (fun e => e.blobId == "b1") :=
  (commit_inserts_fresh_blob_row_per_entry.1 DB.empty 1000 twoEntriesSameBlob
    dbAfterDoubleCommit rfl).1 "b1"

/-- A store whose `uploads` row for `b1` disagrees with the object
store's metadata for `b1`. -/
def dbUploadWrongMeta : DB :=
  ⟨[], [], [⟨0, "b1", 999999999, some "application/json", some 99⟩], 1⟩

/-- C5 counterexample: `commitFiles` succeeds with an empty `uploads`
table (the claim says it must fail when a blob id has no upload record),
and when an uploads row exists its metadata is ignored — the committed
blob's `contentType`/`size` come from the object store's HEAD response,
not from the row. -/
theorem commitFiles_ignores_uploads_table :
    DB.empty.uploads = [] ∧
    (∃ db' : DB, commitFiles headStoreB1 DB.empty 1000 [⟨"/a", "b1", none⟩] = .ok db') ∧
    (∃ db' : DB, commitFiles headStoreB1 dbUploadWrongMeta 1000 [⟨"/a", "b1", none⟩] = .ok db' ∧
      ∃ b ∈ db'.blobs, b.blobId = "b1" ∧ b.contentType = "text/plain" ∧ b.size = 5) :=
  ⟨rfl, ⟨_, rfl⟩, ⟨_, rfl, by decide⟩⟩

/-- C5 (amended): for every entry of a `commitFiles` call the stored
`contentType` and `size` come from the object store's HEAD response for
the entry's blob id (defaulting the content type) and never from the
caller, whose request carries no metadata fields at all; the action fails
with the missing-blobs error exactly when some entry's blob id is absent
from the object store; and on success each entry's `uploads` row, when
one exists, is deleted in the same transaction. -/
theorem commitFiles_metadata_from_store_and_uploads_consumed :
    (∀ (store : String → Option HeadMeta) (db : DB) (now : Nat) (files : List CommitReq)
       (ids : List String),
      commitFiles store db now files = .error (.missingBlobs ids) →
        ∃ f ∈ files, store f.blobId = none) ∧
    (∀ (store : String → Option HeadMeta) (db : DB) (now : Nat) (files : List CommitReq),
      (∃ f ∈ files, store f.blobId = none) →
        commitFiles store db now files =
          .error (.missingBlobs ((files.filter (fun f => (store f.blobId).isNone)).map
            (fun f => f.blobId)))) ∧
    (∀ (store : String → Option HeadMeta) (db : DB) (now : Nat) (files : List CommitReq)
       (db' : DB),
      commitFiles store db now files = .ok db' →
      ∀ f ∈ files, ∃ m : HeadMeta, store f.blobId = some m ∧
        (∃ b ∈ db'.blobs, b.blobId = f.blobId ∧
          b.contentType = m.contentType.getD "application/octet-stream" ∧
          b.size = m.contentLength) ∧
        db'.uploads.filter (fun r => r.blobId == f.blobId) = []) := by
  refine ⟨?_, ?_, ?_⟩
  · intro store db now files ids h
    unfold commitFiles at h
    split at h
    · cases h
    · split at h
      · rename_i hany
        obtain ⟨f, hf, hnone⟩ := List.any_eq_true.mp hany
        exact ⟨f, hf, Option.isNone_iff_eq_none.mp hnone⟩
      · have := commitFilesInternal_error_not_missing h
        simp [Err.isMissingBlobsErr] at this
  · intro store db now files hex
    obtain ⟨f, hf, hnone⟩ := hex
    unfold commitFiles
    rw [if_neg, if_pos]
    · exact List.any_eq_true.mpr ⟨f, hf, Option.isNone_iff_eq_none.mpr hnone⟩
    · intro hemp
      rw [List.isEmpty_iff] at hemp
      rw [hemp] at hf
      cases hf
  · intro store db now files db' h f hf
    unfold commitFiles at h
    split at h
    · rename_i hemp
      rw [List.isEmpty_iff] at hemp
      rw [hemp] at hf
      cases hf
    · split at h
      · cases h
      · rename_i hany
        have hnotnone : (store f.blobId).isNone = false := by
          by_contra hc
          rw [← ne_eq, Bool.ne_false_iff] at hc
          exact hany (List.any_eq_true.mpr ⟨f, hf, hc⟩)
        obtain ⟨m, hm⟩ : ∃ m, store f.blobId = some m := by
          cases hs : store f.blobId with
          | none => rw [hs] at hnotnone; cases hnotnone
          | some m => exact ⟨m, rfl⟩
        refine ⟨m, hm, ?_, ?_⟩
        · have hmem : (⟨f.path, f.blobId, f.basis,
              m.contentType.getD "application/octet-stream", m.contentLength⟩ : CommitEntry) ∈
              files.map (fun f => match store f.blobId with
                | some m => (⟨f.path, f.blobId, f.basis,
                    m.contentType.getD "application/octet-stream", m.contentLength⟩ : CommitEntry)
                | none => ⟨f.path, f.blobId, f.basis, "application/octet-stream", 0⟩) := by
            refine List.mem_map.mpr ⟨f, hf, ?_⟩
            rw [hm]
          obtain ⟨b, hb, h1, h2, h3⟩ :=
            commitApply_entry_blob_present (commitFilesInternal_ok_apply h) _ hmem
          exact ⟨b, hb, h1, h2, h3⟩
        · have hmem : (⟨f.path, f.blobId, f.basis,
              m.contentType.getD "application/octet-stream", m.contentLength⟩ : CommitEntry) ∈
              files.map (fun f => match store f.blobId with
                | some m => (⟨f.path, f.blobId, f.basis,
                    m.contentType.getD "application/octet-stream", m.contentLength⟩ : CommitEntry)
                | none => ⟨f.path, f.blobId, f.basis, "application/octet-stream", 0⟩) := by
            refine List.mem_map.mpr ⟨f, hf, ?_⟩
            rw [hm]
          exact commitApply_upload_consumed (commitFilesInternal_ok_apply h) _ hmem

/-- The store a single commit of `b1` produces from the empty store. -/
def dbAfterSingleCommit : DB :=
  ⟨[⟨1, "/a", "b1"⟩], [⟨0, "b1", "text/plain", 5, 1, 1000⟩], [], 2⟩

/-- Witness for C5: the committed blob row carries the store's HEAD
metadata for `b1` and no uploads row with `b1` survives. -/
theorem commitFiles_metadata_witness :
    ∃ m : HeadMeta, headStoreB1 "b1" = some m ∧
      (∃ b ∈ dbAfterSingleCommit.blobs, b.blobId = "b1" ∧
        b.contentType = m.contentType.getD "application/octet-stream" ∧
        b.size = m.contentLength) ∧
      dbAfterSingleCommit.uploads.filter (fun r => r.blobId == "b1") = [] :=
  commitFiles_metadata_from_store_and_uploads_consumed.2.2 headStoreB1 DB.empty 1000
    [⟨"/a", "b1", none⟩] dbAfterSingleCommit rfl ⟨"/a", "b1", none⟩ (by decide)

end ConvexFs
